import Mathlib

/-!
Verification of the Circus no-loss raffle frontend and its round/epoch state
machine against the system specification.

The TypeScript sources under scrutiny are the React hooks
(`useAutoCrank.ts`, `useRaffleProgram.ts`, `useRaffleState.ts`), the ticket
pricing utilities and the `StakingRaffle` component.  JavaScript numbers are
IEEE-754 binary64 values; arithmetic on them is modelled exactly by rationals
together with an explicit round-to-nearest (ties to even) operation `fl`.
The on-chain Anchor program (`lib.rs`) is not part of the sources; where a
property depends on its behaviour, the corresponding operation is modelled
from the specification and marked as such in its doc comment.
-/

set_option maxRecDepth 10000
set_option exponentiation.threshold 700

namespace Circus

/-! ## Exact model of IEEE-754 binary64 rounding -/

/-- Fuel-indexed bit length of a natural number: `bl f n` is the number of
binary digits of `n`, provided `n < 2 ^ f`. -/
def bl : ℕ → ℕ → ℕ
  | 0, _ => 0
  | f + 1, n => if n = 0 then 0 else bl f (n / 2) + 1

/-- Bit length of a natural number below `2 ^ 2200`. -/
def bitLen (n : ℕ) : ℕ := bl 2200 n

/-- Round a rational to the nearest integer, ties to even (the rounding mode
of IEEE-754 binary64 arithmetic). -/
def rhe (x : ℚ) : ℤ :=
  let f := ⌊x⌋
  let r := x - f
  if r < 1/2 then f else if 1/2 < r then f + 1 else if f % 2 = 0 then f else f + 1

/-- Floor of the base-2 logarithm of a positive rational, valid on
`[2 ^ (-400), 2 ^ 1800)`. -/
def floorLog2 (q : ℚ) : ℤ :=
  (bitLen (⌊q * 2^400⌋).toNat : ℤ) - 1 - 400

/-- Round a positive rational to the nearest binary64 value: 53-bit
significand, round half to even.  Overflow and subnormals never occur in the
quantities this development manipulates. -/
def flPos (q : ℚ) : ℚ :=
  let e : ℤ := floorLog2 q - 52
  if 0 ≤ e then (rhe (q / 2^e.toNat) : ℚ) * 2^e.toNat
  else (rhe (q * 2^(-e).toNat) : ℚ) / 2^(-e).toNat

/-- Round a rational to the nearest IEEE-754 binary64 value.  Every
JavaScript arithmetic operation (`+`, `*`, `/`) returns `fl` of the exact
result of the operation on the operands. -/
def fl (q : ℚ) : ℚ :=
  if q < 0 then -flPos (-q) else if q = 0 then 0 else flPos q

/-- JavaScript `Math.round`: round half toward positive infinity (the
ECMAScript specification defines it on the exact value). -/
def jround (x : ℚ) : ℤ := ⌊x + 1/2⌋

/-! ## Ticket pricing utilities (`src/utils/tickets.ts`) -/

/-- The double denoted by the literal `0.01`: fixed ticket price in SOL. -/
def TICKET_PRICE_SOL : ℚ := fl (1/100)

/-- Fixed ticket price in lamports. -/
def TICKET_PRICE_LAMPORTS : ℕ := 10000000

/-- Lamports per SOL. -/
def LAMPORTS_PER_SOL : ℕ := 1000000000

/-- `solToTickets(solAmount)`: `Math.floor(solAmount / TICKET_PRICE_SOL)`,
with the division performed in binary64. -/
def solToTickets (solAmount : ℚ) : ℤ :=
  ⌊fl (solAmount / TICKET_PRICE_SOL)⌋

/-- `ticketsToSol(tickets)`: `tickets * TICKET_PRICE_SOL` in binary64. -/
def ticketsToSol (tickets : ℚ) : ℚ :=
  fl (tickets * TICKET_PRICE_SOL)

/-- `isValidTicketAmount(solAmount)`: converts to lamports with
`Math.round(solAmount * LAMPORTS_PER_SOL)` (the product computed in
binary64) and checks divisibility by the ticket price in lamports.
JavaScript `%` truncates toward zero, hence `Int.tmod`. -/
def isValidTicketAmount (solAmount : ℚ) : Bool :=
  Int.tmod (jround (fl (solAmount * (LAMPORTS_PER_SOL : ℚ)))) (TICKET_PRICE_LAMPORTS : ℤ) == 0

/-- `getTicketCount(ticketStart, ticketEnd)` from `tickets.ts`. -/
def getTicketCount (ticketStart ticketEnd : ℤ) : ℤ :=
  ticketEnd - ticketStart + 1

/-! ## The deposit entry point (`useRaffleProgram.ts`, `deposit`) -/

/-- Outcome of the `deposit` function of `useRaffleTransactions`: the two
early-return validation errors, or submission of the transaction. -/
inductive DepositOutcome where
  | rejectedNonPositive : DepositOutcome
  | rejectedNotWholeTickets : DepositOutcome
  | submitted (amountLamports : ℚ) : DepositOutcome
deriving DecidableEq

/-- The validation prefix of `deposit(amountSOL)`: rejects `amountSOL <= 0`,
then rejects `!isValidTicketAmount(amountSOL)`, otherwise submits the
transaction with `amountSOL * LAMPORTS_PER_SOL` (computed in binary64). -/
def deposit (amountSOL : ℚ) : DepositOutcome :=
  if amountSOL ≤ 0 then .rejectedNonPositive
  else if !isValidTicketAmount amountSOL then .rejectedNotWholeTickets
  else .submitted (fl (amountSOL * (LAMPORTS_PER_SOL : ℚ)))

/-! ## The crank (`useAutoCrank.ts`) and the round state machine -/

/-- `EPOCH_DURATION_SECONDS` from `useAutoCrank.ts`. -/
def EPOCH_DURATION_SECONDS : ℤ := 120

/-- The round fields `checkAndCrank` reads (`RoundState` of
`useRaffleState.ts`, restricted to the fields that matter here). -/
structure RoundSnapshot where
  epochInRound : ℤ
  startEpoch : ℤ
  totalTicketsSold : ℤ
  isComplete : Bool
deriving DecidableEq

/-- `expectedEpoch` as computed by `checkAndCrank`:
`Math.min(Math.floor(elapsedMs / (EPOCH_DURATION_SECONDS * 1000)) + 1, 3)`.
For millisecond timestamps below `2 ^ 53` the binary64 division followed by
`Math.floor` agrees with the floor of the exact quotient. -/
def expectedEpoch (now startEpoch : ℤ) : ℤ :=
  min (⌊((now - startEpoch : ℤ) : ℚ) / ((EPOCH_DURATION_SECONDS * 1000 : ℤ) : ℚ)⌋ + 1) 3

/-- `shouldAdvanceEpoch` from `checkAndCrank`: the target epoch strictly
exceeds the stored `epochInRound`. -/
def shouldAdvanceEpoch (r : RoundSnapshot) (now : ℤ) : Bool :=
  decide (expectedEpoch now r.startEpoch > r.epochInRound)

/-- `epoch3EndTime` from `checkAndCrank`. -/
def epoch3EndTime (r : RoundSnapshot) : ℤ :=
  r.startEpoch + 3 * (EPOCH_DURATION_SECONDS * 1000)

/-- `shouldFinalize` from `checkAndCrank`: epoch at least 3, epoch-3 end
time reached, and at least one ticket sold. -/
def shouldFinalize (r : RoundSnapshot) (now : ℤ) : Bool :=
  decide (r.epochInRound ≥ 3) && decide (now ≥ epoch3EndTime r) &&
    decide (r.totalTicketsSold > 0)

/-- The condition under which `checkAndCrank` issues a state-changing crank
call: the round is not complete (complete rounds return before the crank
logic) and either the epoch should advance or the round should finalize.
The rate-limiting timestamps of the hook only suppress repetition and are
not part of the decision logic. -/
def checkAndCrankFires (r : RoundSnapshot) (now : ℤ) : Bool :=
  !r.isComplete && (shouldAdvanceEpoch r now || shouldFinalize r now)

/-- Modelled from the spec: the on-chain crank transition of §4.3
(RoundLifecycleManager); the Anchor program `lib.rs` is not among the
sources, only its callers and tests are.  The crank recomputes the target
epoch from the wall clock, advances `epochInRound` if the target exceeds it,
then finalizes when epoch ≥ 3, the three epoch durations have elapsed, at
least one ticket was sold and the round is not already complete. -/
def crank (r : RoundSnapshot) (now : ℤ) : RoundSnapshot :=
  let target := expectedEpoch now r.startEpoch
  let r1 := if r.epochInRound < target then { r with epochInRound := target } else r
  if 3 ≤ r1.epochInRound ∧ epoch3EndTime r1 ≤ now ∧ 0 < r1.totalTicketsSold ∧
      r1.isComplete = false
  then { r1 with isComplete := true }
  else r1

/-- Modelled from the spec: §4.1/§4.3 — a deposit of `numTickets` tickets
first runs the crank recomputation, then is rejected if the round reached
epoch 3, is complete, or the ticket count is not positive; otherwise it
increments `totalTicketsSold`. -/
def depositTickets (r : RoundSnapshot) (now : ℤ) (numTickets : ℤ) : RoundSnapshot :=
  let r1 := crank r now
  if 3 ≤ r1.epochInRound ∨ r1.isComplete = true ∨ numTickets ≤ 0 then r1
  else { r1 with totalTicketsSold := r1.totalTicketsSold + numTickets }

/-- Modelled from the spec: a freshly created round starts in epoch 1 with
no tickets sold and not complete (§4.3). -/
def initialRound (startEpoch : ℤ) : RoundSnapshot :=
  { epochInRound := 1, startEpoch := startEpoch, totalTicketsSold := 0, isComplete := false }

/-- Round states reachable from round creation through any sequence of
crank calls and deposits, at arbitrary timestamps. -/
inductive ReachableRound : RoundSnapshot → Prop where
  | init (startEpoch : ℤ) : ReachableRound (initialRound startEpoch)
  | crankStep {r : RoundSnapshot} (now : ℤ) :
      ReachableRound r → ReachableRound (crank r now)
  | depositStep {r : RoundSnapshot} (now numTickets : ℤ) :
      ReachableRound r → ReachableRound (depositTickets r now numTickets)

/-! ## Winner selection (modelled from the spec, §4.4) -/

/-- A participant record as supplied to winner selection: opaque owner
identity and the assigned inclusive ticket range. -/
structure ParticipantRecord where
  owner : ℕ
  ticketStart : ℕ
  ticketEnd : ℕ
deriving DecidableEq

/-- Modelled from the spec: `winningTicket = seed mod ticketCount` (§4.4);
the on-chain `select_winner_local` of `lib.rs` is not among the sources. -/
def winningTicketOf (seed ticketCount : ℕ) : ℕ := seed % ticketCount

/-- Modelled from the spec: §4.4 WinnerSelector — scan the supplied batch
for the record whose `[ticketStart, ticketEnd]` contains the winning
ticket; `none` when the owning record is absent from the batch. -/
def selectWinner (seed ticketCount : ℕ) (batch : List ParticipantRecord) :
    Option ParticipantRecord :=
  let w := winningTicketOf seed ticketCount
  batch.find? (fun p => decide (p.ticketStart ≤ w) && decide (w ≤ p.ticketEnd))

/-! ## Randomness seeds (`useAutoCrank.ts` line 51, `useRaffleProgram.ts`) -/

/-- The seed `checkAndCrank` passes to `initRound`: `Date.now()`. -/
def initRoundRandomSeed (dateNowMs : ℕ) : ℕ := dateNowMs

/-- The seed the admin `selectWinner` callback passes to
`selectWinnerLocal`: `new BN(Date.now())`. -/
def selectWinnerSeed (dateNowMs : ℕ) : ℕ := dateNowMs

/-! ## Pending-prize fetch (`useRaffleState.ts`, `fetchState`) -/

/-- A `ClaimTicket` account as read by the frontend. -/
structure ClaimTicket where
  roundId : ℕ
  winner : ℕ
  prizeAmount : ℕ
  stakeAmount : ℕ
  claimed : Bool
deriving DecidableEq

/-- The claim-ticket loop of `fetchState`: for each round index `i` from
`max(1, currentRound - 10)` to `currentRound` inclusive, fetch the
`ClaimTicket` at the PDA for `(i, publicKey)` (modelled by `store i`) and
keep it only when it exists and is unclaimed. -/
def fetchClaimTickets (store : ℕ → Option ClaimTicket) (currentRoundId : ℕ) :
    List ClaimTicket :=
  (List.range' (max 1 (currentRoundId - 10)) (currentRoundId + 1 - max 1 (currentRoundId - 10))).filterMap
    (fun i =>
      match store i with
      | some ct => if ct.claimed then none else some ct
      | none => none)

/-! ## Deposit gating in the UI (`StakingRaffle` component) -/

/-- The displayed epoch status: `isComplete` first, then epoch number. -/
inductive EpochStatus where
  | Active : EpochStatus
  | Ended : EpochStatus
  | Completed : EpochStatus
deriving DecidableEq

/-- `epochStatus` as derived in `StakingRaffle`. -/
def epochStatus (isComplete : Bool) (epochInRound : ℤ) : EpochStatus :=
  if isComplete then .Completed
  else if epochInRound ≥ 3 then .Ended
  else .Active

/-- `canDeposit` from `StakingRaffle`: deposits allowed only in epochs 1-2
of an active, incomplete round. -/
def canDeposit (epochInRound : ℤ) (isComplete : Bool) : Bool :=
  decide (epochInRound < 3) && (epochStatus isComplete epochInRound == .Active) &&
    !isComplete

/-- Outcome of `handleBuyClick`: the stable deposits-closed alert (no
transaction is initiated), or the purchase-confirmation flow. -/
inductive BuyClickOutcome where
  | depositsClosedAlert : BuyClickOutcome
  | confirmationShown : BuyClickOutcome
deriving DecidableEq

/-- `handleBuyClick` from `StakingRaffle`: refuses with the alert when
`canDeposit` is false, otherwise opens the confirmation modal. -/
def handleBuyClick (epochInRound : ℤ) (isComplete : Bool) : BuyClickOutcome :=
  if !(canDeposit epochInRound isComplete) then .depositsClosedAlert
  else .confirmationShown

/-! ## Participant filtering (`useParticipantCount`, `get_participants`) -/

/-- A `UserAccount` as read by the frontend. -/
structure UserAccountView where
  owner : ℕ
  balance : ℤ
  ticketStart : ℤ
  ticketEnd : ℤ
  roundJoined : ℤ
deriving DecidableEq

/-- The participant filter shared by `useParticipantCount` and
`getParticipants`: accounts whose `roundJoined` equals the round and whose
`balance` is positive. -/
def participantsFor (accounts : List UserAccountView) (roundId : ℤ) :
    List UserAccountView :=
  accounts.filter (fun a => a.roundJoined == roundId && decide (a.balance > 0))

/-- `participantCount` as set by `useParticipantCount`. -/
def participantCount (accounts : List UserAccountView) (roundId : ℤ) : ℕ :=
  (participantsFor accounts roundId).length

/-! ## Ticket ledger deposit (modelled from the spec, §4.1) -/

/-- The round-level ticket tally the ledger updates. -/
structure LedgerRound where
  totalTicketsSold : ℕ
deriving DecidableEq

/-- Modelled from the spec: §4.1 TicketLedger.deposit — the on-chain
deposit of `lib.rs` is not among the sources.  Rejects amounts that are
zero or not an exact multiple of the ticket price; otherwise assigns the
contiguous range `[ticketsSold, ticketsSold + numTickets - 1]` and
increments the tally.  Returns the new round state with the assigned
`(ticketStart, ticketEnd)`. -/
def ledgerDeposit (r : LedgerRound) (amountLamports : ℕ) :
    Option (LedgerRound × ℕ × ℕ) :=
  if amountLamports = 0 ∨ amountLamports % TICKET_PRICE_LAMPORTS ≠ 0 then none
  else
    let numTickets := amountLamports / TICKET_PRICE_LAMPORTS
    some ({ totalTicketsSold := r.totalTicketsSold + numTickets },
      r.totalTicketsSold, r.totalTicketsSold + numTickets - 1)

/-! ## Helper lemmas for the round state machine -/

theorem crank_startEpoch (r : RoundSnapshot) (now : ℤ) :
    (crank r now).startEpoch = r.startEpoch := by
  unfold crank
  dsimp only
  split_ifs <;> rfl

theorem crank_totalTicketsSold (r : RoundSnapshot) (now : ℤ) :
    (crank r now).totalTicketsSold = r.totalTicketsSold := by
  unfold crank
  dsimp only
  split_ifs <;> rfl

theorem crank_epoch_mono (r : RoundSnapshot) (now : ℤ) :
    r.epochInRound ≤ (crank r now).epochInRound := by
  unfold crank
  dsimp only
  split_ifs <;> simp <;> omega

theorem crank_preserves_ticket_inv (r : RoundSnapshot) (now : ℤ)
    (h : r.isComplete = true → 0 < r.totalTicketsSold) :
    (crank r now).isComplete = true → 0 < (crank r now).totalTicketsSold := by
  unfold crank
  dsimp only
  split_ifs with h1 h2 h3 <;> simp_all

theorem depositTickets_preserves_ticket_inv (r : RoundSnapshot) (now k : ℤ)
    (h : r.isComplete = true → 0 < r.totalTicketsSold) :
    (depositTickets r now k).isComplete = true →
      0 < (depositTickets r now k).totalTicketsSold := by
  have h1 := crank_preserves_ticket_inv r now h
  unfold depositTickets
  dsimp only
  split_ifs with h2
  · exact h1
  · intro hc
    simp only at hc
    push_neg at h2
    simp [h2.2.1] at hc

theorem depositTickets_epoch_mono (r : RoundSnapshot) (now k : ℤ) :
    r.epochInRound ≤ (depositTickets r now k).epochInRound := by
  have h1 := crank_epoch_mono r now
  unfold depositTickets
  dsimp only
  split_ifs with h2
  · exact h1
  · simpa using h1

theorem expectedEpoch_nonneg_lower (now startEpoch : ℤ) (h : startEpoch ≤ now) :
    1 ≤ expectedEpoch now startEpoch ∧ expectedEpoch now startEpoch ≤ 3 := by
  unfold expectedEpoch
  have h0 : (0 : ℤ) ≤ ⌊((now - startEpoch : ℤ) : ℚ) / ((EPOCH_DURATION_SECONDS * 1000 : ℤ) : ℚ)⌋ := by
    rw [Int.floor_nonneg]
    apply div_nonneg
    · exact_mod_cast sub_nonneg.mpr h
    · norm_num [EPOCH_DURATION_SECONDS]
  omega

theorem expectedEpoch_mono (now₁ now₂ startEpoch : ℤ) (h : now₁ ≤ now₂) :
    expectedEpoch now₁ startEpoch ≤ expectedEpoch now₂ startEpoch := by
  unfold expectedEpoch
  have hc : (0 : ℚ) < ((EPOCH_DURATION_SECONDS * 1000 : ℤ) : ℚ) := by
    norm_num [EPOCH_DURATION_SECONDS]
  have hab : ((now₁ - startEpoch : ℤ) : ℚ) ≤ ((now₂ - startEpoch : ℤ) : ℚ) := by
    exact_mod_cast sub_le_sub_right h startEpoch
  have hfl : ⌊((now₁ - startEpoch : ℤ) : ℚ) / ((EPOCH_DURATION_SECONDS * 1000 : ℤ) : ℚ)⌋ ≤
      ⌊((now₂ - startEpoch : ℤ) : ℚ) / ((EPOCH_DURATION_SECONDS * 1000 : ℤ) : ℚ)⌋ :=
    Int.floor_le_floor ((div_le_div_iff_of_pos_right hc).mpr hab)
  omega

/-! ## C1: finalization requires sold tickets -/

/-- C1: a finalizing crank fires only when `epochInRound ≥ 3`, the epoch-3
end time has been reached and `totalTicketsSold > 0`; consequently no
reachable round state has `isComplete` with zero tickets sold, and a
zero-ticket round is left open and unchanged in its tally by any crank. -/
theorem finalize_requires_tickets :
    (∀ (r : RoundSnapshot) (now : ℤ),
      shouldFinalize r now = true ↔
        3 ≤ r.epochInRound ∧ epoch3EndTime r ≤ now ∧ 0 < r.totalTicketsSold) ∧
    (∀ r : RoundSnapshot, ReachableRound r → r.isComplete = true → 0 < r.totalTicketsSold) ∧
    (∀ (r : RoundSnapshot) (now : ℤ), r.totalTicketsSold = 0 →
      (crank r now).isComplete = r.isComplete ∧ (crank r now).totalTicketsSold = 0) := by
  refine ⟨?_, ?_, ?_⟩
  · intro r now
    simp [shouldFinalize]
    omega
  · intro r h
    induction h with
    | init startEpoch => simp [initialRound]
    | crankStep now _ ih => exact crank_preserves_ticket_inv _ now ih
    | depositStep now k _ ih => exact depositTickets_preserves_ticket_inv _ now k ih
  · intro r now h
    constructor
    · unfold crank
      dsimp only
      split_ifs with h1 h2 h3 <;> simp_all
    · rw [crank_totalTicketsSold, h]

/-- Witness for C1 at a concrete reachable state. -/
theorem finalize_requires_tickets_witness :
    ((initialRound 0).isComplete = true → 0 < (initialRound 0).totalTicketsSold) ∧
    (crank (initialRound 0) 999999999).isComplete = (initialRound 0).isComplete := by
  refine ⟨finalize_requires_tickets.2.1 (initialRound 0) (ReachableRound.init 0), ?_⟩
  exact (finalize_requires_tickets.2.2 (initialRound 0) 999999999 rfl).1

theorem crank_epoch_ge_target (r : RoundSnapshot) (now : ℤ) :
    expectedEpoch now r.startEpoch ≤ (crank r now).epochInRound := by
  unfold crank
  dsimp only
  split_ifs <;> (try simp) <;> omega

theorem crank_not_refireable (r : RoundSnapshot) (now : ℤ) :
    ¬(3 ≤ (crank r now).epochInRound ∧ epoch3EndTime (crank r now) ≤ now ∧
      0 < (crank r now).totalTicketsSold ∧ (crank r now).isComplete = false) := by
  unfold crank
  dsimp only
  split_ifs with h1 h2 <;> simp_all [epoch3EndTime]

/-! ## C2: target-epoch computation and epoch monotonicity -/

/-- C2: on every crank check the target epoch is
`min(floor((now - startEpoch) / epochDuration) + 1, 3)`; whenever
`now ≥ startEpoch` this value lies in `[1, 3]`; it is non-decreasing in
`now`; an epoch-advancing call fires exactly when the target exceeds the
stored `epochInRound`; and neither a crank nor a deposit step ever
decreases `epochInRound`, so it never decreases across any sequence of
crank calls. -/
theorem crank_target_epoch_monotone :
    (∀ now startEpoch : ℤ,
      expectedEpoch now startEpoch =
        min (⌊((now - startEpoch : ℤ) : ℚ) / ((EPOCH_DURATION_SECONDS * 1000 : ℤ) : ℚ)⌋ + 1) 3) ∧
    (∀ now startEpoch : ℤ, startEpoch ≤ now →
      1 ≤ expectedEpoch now startEpoch ∧ expectedEpoch now startEpoch ≤ 3) ∧
    (∀ now₁ now₂ startEpoch : ℤ, now₁ ≤ now₂ →
      expectedEpoch now₁ startEpoch ≤ expectedEpoch now₂ startEpoch) ∧
    (∀ (r : RoundSnapshot) (now : ℤ),
      shouldAdvanceEpoch r now = true ↔ r.epochInRound < expectedEpoch now r.startEpoch) ∧
    (∀ (r : RoundSnapshot) (now : ℤ), r.epochInRound ≤ (crank r now).epochInRound) ∧
    (∀ (r : RoundSnapshot) (now k : ℤ), r.epochInRound ≤ (depositTickets r now k).epochInRound) := by
  refine ⟨fun _ _ => rfl, expectedEpoch_nonneg_lower, expectedEpoch_mono, ?_,
    crank_epoch_mono, depositTickets_epoch_mono⟩
  intro r now
  simp [shouldAdvanceEpoch]

/-- Witness for C2 at concrete timestamps. -/
theorem crank_target_epoch_monotone_witness :
    (1 ≤ expectedEpoch 250000 0 ∧ expectedEpoch 250000 0 ≤ 3) ∧
    expectedEpoch 121000 0 ≤ expectedEpoch 250000 0 :=
  ⟨crank_target_epoch_monotone.2.1 250000 0 (by decide),
    crank_target_epoch_monotone.2.2.1 121000 250000 0 (by decide)⟩

/-! ## C6: idempotence of the crank -/

/-- C6: the crank is idempotent — running the crank transition twice at the
same timestamp produces the same state as running it once, and once the
stored `epochInRound` equals the computed target epoch and finalization is
not due, a repeated `checkAndCrank` triggers no state-changing call. -/
theorem crank_idempotent :
    (∀ (r : RoundSnapshot) (now : ℤ), crank (crank r now) now = crank r now) ∧
    (∀ (r : RoundSnapshot) (now : ℤ),
      r.epochInRound = expectedEpoch now r.startEpoch → shouldFinalize r now = false →
      checkAndCrankFires r now = false) := by
  constructor
  · intro r now
    set s := crank r now with hs
    have hge : expectedEpoch now s.startEpoch ≤ s.epochInRound := by
      rw [hs, crank_startEpoch]
      exact crank_epoch_ge_target r now
    have hnf : ¬(3 ≤ s.epochInRound ∧ epoch3EndTime s ≤ now ∧ 0 < s.totalTicketsSold ∧
        s.isComplete = false) := by
      rw [hs]
      exact crank_not_refireable r now
    show crank s now = s
    unfold crank
    dsimp only
    rw [if_neg (by omega : ¬(s.epochInRound < expectedEpoch now s.startEpoch)), if_neg hnf]
  · intro r now h1 h2
    have h3 : shouldAdvanceEpoch r now = false := by
      simp [shouldAdvanceEpoch, ← h1]
    simp [checkAndCrankFires, h2, h3]

/-- Witness for C6 at a concrete state and timestamp. -/
theorem crank_idempotent_witness :
    checkAndCrankFires
      { epochInRound := 1, startEpoch := 0, totalTicketsSold := 0, isComplete := false } 0 = false := by
  apply crank_idempotent.2
  · show (1 : ℤ) = expectedEpoch 0 0
    norm_num [expectedEpoch, EPOCH_DURATION_SECONDS]
  · decide

/-! ## C4: deposits refused at epoch 3 or after completion -/

/-- C4: for every round state with `epochInRound ≥ 3` or `isComplete`, a
ticket-purchase attempt is refused with the stable deposits-closed alert
(a distinguishable outcome) and no deposit transaction is initiated. -/
theorem deposits_closed_refusal :
    ∀ (epochInRound : ℤ) (isComplete : Bool),
      3 ≤ epochInRound ∨ isComplete = true →
      canDeposit epochInRound isComplete = false ∧
      handleBuyClick epochInRound isComplete = BuyClickOutcome.depositsClosedAlert := by
  intro e ic h
  have hc : canDeposit e ic = false := by
    rcases h with h | h
    · have hd : decide (e < 3) = false := by simp; omega
      simp [canDeposit, hd]
    · simp [canDeposit, h]
  exact ⟨hc, by simp [handleBuyClick, hc]⟩

/-- Witness for C4 at epoch 3 of an incomplete round. -/
theorem deposits_closed_refusal_witness :
    canDeposit 3 false = false ∧
    handleBuyClick 3 false = BuyClickOutcome.depositsClosedAlert :=
  deposits_closed_refusal 3 false (Or.inl (by decide))

/-! ## C7: winner selection is pure and deterministic -/

/-- C7: winner selection is a pure function of seed, ticket count and the
supplied ledger batch: it computes `seed mod ticketCount` and returns the
record whose range contains that index; identical inputs give identical
winners; the winning index is below the ticket count; and with 15 tickets
and seed 123456789 the winning ticket is 9, owned by the participant
holding tickets 0-9. -/
theorem winner_selection_pure :
    (∀ (s₁ s₂ n₁ n₂ : ℕ) (b₁ b₂ : List ParticipantRecord),
      s₁ = s₂ → n₁ = n₂ → b₁ = b₂ → selectWinner s₁ n₁ b₁ = selectWinner s₂ n₂ b₂) ∧
    (∀ (seed n : ℕ) (batch : List ParticipantRecord) (p : ParticipantRecord),
      selectWinner seed n batch = some p →
        p ∈ batch ∧ p.ticketStart ≤ winningTicketOf seed n ∧
          winningTicketOf seed n ≤ p.ticketEnd) ∧
    (∀ seed n : ℕ, 0 < n → winningTicketOf seed n < n) ∧
    (winningTicketOf 123456789 15 = 9 ∧
      selectWinner 123456789 15 [⟨0, 0, 9⟩, ⟨1, 10, 14⟩] = some ⟨0, 0, 9⟩) := by
  refine ⟨fun s₁ s₂ n₁ n₂ b₁ b₂ hs hn hb => by rw [hs, hn, hb], ?_, ?_, by decide, by decide⟩
  · intro seed n batch p h
    unfold selectWinner at h
    dsimp only at h
    have hm := List.mem_of_find?_eq_some h
    have hp := List.find?_some h
    simp at hp
    exact ⟨hm, hp.1, hp.2⟩
  · intro seed n hn
    exact Nat.mod_lt _ hn

/-- Witness for C7: the winning index is within range for 15 tickets. -/
theorem winner_selection_pure_witness :
    winningTicketOf 123456789 15 < 15 :=
  winner_selection_pure.2.2.1 123456789 15 (by decide)

/-! ## C8: every randomness seed is the wall clock -/

/-- C8: the seeds supplied to round initialization and winner selection are
the current wall-clock milliseconds, so two invocations at the same clock
time produce the identical seed — the insecure clock-derived stand-in. -/
theorem seeds_are_wall_clock :
    (∀ t : ℕ, initRoundRandomSeed t = t ∧ selectWinnerSeed t = t) ∧
    (∀ t₁ t₂ : ℕ, t₁ = t₂ →
      initRoundRandomSeed t₁ = initRoundRandomSeed t₂ ∧
      selectWinnerSeed t₁ = selectWinnerSeed t₂ ∧
      selectWinnerSeed t₁ = initRoundRandomSeed t₁) :=
  ⟨fun _ => ⟨rfl, rfl⟩, fun _ _ h => ⟨by rw [h], by rw [h], rfl⟩⟩

/-- Witness for C8 at a concrete clock value. -/
theorem seeds_are_wall_clock_witness :
    selectWinnerSeed 1700000000000 = initRoundRandomSeed 1700000000000 :=
  (seeds_are_wall_clock.2 1700000000000 1700000000000 rfl).2.2

/-! ## C9: surfaced pending prizes are recent and unclaimed -/

/-- C9: assuming each stored claim ticket records the round it is keyed by,
every ticket in the list surfaced by `fetchState` is unclaimed and its
round number lies in `[max(1, currentRound - 10), currentRound]`; claimed
tickets and tickets older than ten rounds are never included. -/
theorem pending_prizes_window :
    ∀ (store : ℕ → Option ClaimTicket) (currentRoundId : ℕ),
      (∀ i ct, store i = some ct → ct.roundId = i) →
      ∀ ct ∈ fetchClaimTickets store currentRoundId,
        ct.claimed = false ∧ max 1 (currentRoundId - 10) ≤ ct.roundId ∧
          ct.roundId ≤ currentRoundId := by
  intro store cr hstore ct hct
  unfold fetchClaimTickets at hct
  rw [List.mem_filterMap] at hct
  obtain ⟨i, hi, hfi⟩ := hct
  rw [List.mem_range'_1] at hi
  rcases hs : store i with _ | ct'
  · rw [hs] at hfi
    simp at hfi
  · rw [hs] at hfi
    by_cases hcl : ct'.claimed
    · simp [hcl] at hfi
    · simp only [hcl, if_neg, Bool.false_eq_true, ite_false, Option.some.injEq] at hfi
      subst hfi
      have hr := hstore i ct' hs
      refine ⟨by simpa using hcl, ?_, ?_⟩ <;> omega

/-- Witness for C9 with a one-ticket store at round 12. -/
theorem pending_prizes_window_witness :
    (⟨7, 0, 5, 3, false⟩ : ClaimTicket).claimed = false ∧
    max 1 (12 - 10) ≤ (⟨7, 0, 5, 3, false⟩ : ClaimTicket).roundId ∧
    (⟨7, 0, 5, 3, false⟩ : ClaimTicket).roundId ≤ 12 := by
  apply pending_prizes_window
    (fun i => if i = 7 then some ⟨7, 0, 5, 3, false⟩ else none) 12
  · intro i ct h
    by_cases hi : i = 7
    · simp [hi] at h
      rw [← h, hi]
    · simp [hi] at h
  · decide

/-! ## C10: participants are exactly joined accounts with positive balance -/

/-- C10: an account is counted as a participant of round `R` exactly when
its `roundJoined` equals `R` and its balance is positive; an account whose
balance was zeroed by settlement is excluded even though `roundJoined`
still equals `R`; the participant count is the length of the filtered
list. -/
theorem participant_filter_iff :
    (∀ (accounts : List UserAccountView) (roundId : ℤ) (a : UserAccountView),
      a ∈ participantsFor accounts roundId ↔
        a ∈ accounts ∧ a.roundJoined = roundId ∧ 0 < a.balance) ∧
    (∀ (accounts : List UserAccountView) (roundId : ℤ) (a : UserAccountView),
      a ∈ accounts → a.roundJoined = roundId → a.balance = 0 →
      a ∉ participantsFor accounts roundId) ∧
    (∀ (accounts : List UserAccountView) (roundId : ℤ),
      participantCount accounts roundId = (participantsFor accounts roundId).length) := by
  refine ⟨?_, ?_, fun _ _ => rfl⟩
  · intro accounts R a
    simp [participantsFor, List.mem_filter, and_assoc]
  · intro accounts R a ha hr hb
    simp [participantsFor, List.mem_filter, hb]

/-- Witness for C10: a zero-balance account joined to round 5 is excluded. -/
theorem participant_filter_iff_witness :
    (⟨1, 0, 0, 0, 5⟩ : UserAccountView) ∉
      participantsFor [(⟨1, 0, 0, 0, 5⟩ : UserAccountView)] 5 :=
  participant_filter_iff.2.1 [⟨1, 0, 0, 0, 5⟩] 5 ⟨1, 0, 0, 0, 5⟩ (by decide) rfl rfl

/-! ## Toolkit: correctness of the binary64 rounding model -/

theorem bl_zero (f : ℕ) : bl f 0 = 0 := by
  cases f <;> simp [bl]

theorem bl_spec (f : ℕ) : ∀ n : ℕ, n ≠ 0 → n < 2 ^ f →
    2 ^ (bl f n - 1) ≤ n ∧ n < 2 ^ (bl f n) := by
  induction f with
  | zero =>
    intro n h0 hlt
    simp at hlt
    omega
  | succ f ih =>
    intro n h0 hlt
    rw [bl, if_neg h0]
    by_cases h1 : n / 2 = 0
    · have hn1 : n = 1 := by omega
      subst hn1
      rw [h1, bl_zero]
      norm_num
    · obtain ⟨ih1, ih2⟩ := ih (n / 2) h1 (by rw [pow_succ] at hlt; omega)
      have hb1 : 1 ≤ bl f (n / 2) := by
        by_contra hcon
        push_neg at hcon
        have hz : bl f (n / 2) = 0 := by omega
        rw [hz] at ih2
        simp at ih2
        omega
      constructor
      · rw [Nat.add_sub_cancel]
        have h2 : 2 ^ bl f (n / 2) = 2 * 2 ^ (bl f (n / 2) - 1) := by
          conv_lhs => rw [show bl f (n / 2) = (bl f (n / 2) - 1) + 1 by omega]
          rw [pow_succ']
        omega
      · rw [pow_succ']
        omega

theorem rhe_bounds (x : ℚ) :
    x - 1/2 ≤ ((rhe x : ℤ) : ℚ) ∧ ((rhe x : ℤ) : ℚ) ≤ x + 1/2 := by
  unfold rhe
  dsimp only
  have h1 : ((⌊x⌋ : ℤ) : ℚ) ≤ x := Int.floor_le x
  have h2 : x < ⌊x⌋ + 1 := Int.lt_floor_add_one x
  split_ifs with ha hb hc <;> constructor <;> push_cast at * <;> linarith

theorem rhe_eval_down (x : ℚ) (m : ℤ) (h1 : (m : ℚ) ≤ x) (h2 : x - m < 1/2) :
    rhe x = m := by
  have hf : ⌊x⌋ = m := Int.floor_eq_iff.mpr ⟨h1, by push_cast; linarith⟩
  unfold rhe
  dsimp only
  rw [hf, if_pos (by push_cast; linarith)]

theorem rhe_eval_up (x : ℚ) (m : ℤ) (h1 : (m : ℚ) ≤ x) (h2 : x < (m : ℚ) + 1)
    (h3 : 1/2 < x - m) : rhe x = m + 1 := by
  have hf : ⌊x⌋ = m := Int.floor_eq_iff.mpr ⟨h1, by push_cast; linarith⟩
  unfold rhe
  dsimp only
  rw [hf, if_neg (by push_cast; linarith), if_pos (by push_cast; linarith)]

theorem zpow_sub_natCast (a b : ℕ) : (2:ℚ)^((a:ℤ) - (b:ℤ)) = 2^a / 2^b := by
  rw [zpow_sub₀ (by norm_num : (2:ℚ) ≠ 0), zpow_natCast, zpow_natCast]

theorem floorLog2_bounds (q : ℚ) (h1 : 1/2^300 ≤ q) (h2 : q ≤ 2^300) :
    (2:ℚ)^(floorLog2 q) ≤ q ∧ q < (2:ℚ)^(floorLog2 q + 1) := by
  have hq0 : (0:ℚ) < q := lt_of_lt_of_le (by norm_num) h1
  have hm1 : (2:ℤ)^100 ≤ ⌊q * 2^400⌋ := by
    rw [Int.le_floor]
    push_cast
    have := mul_le_mul_of_nonneg_right h1 (show (0:ℚ) ≤ 2^400 by positivity)
    calc ((2:ℚ)^100) = (1/2^300) * 2^400 := by norm_num
    _ ≤ q * 2^400 := this
  have hmq : ((⌊q * 2^400⌋ : ℤ) : ℚ) ≤ q * 2^400 := Int.floor_le _
  have hqm : q * 2^400 < ⌊q * 2^400⌋ + 1 := Int.lt_floor_add_one _
  have hm0 : (0:ℤ) < ⌊q * 2^400⌋ := lt_of_lt_of_le (by positivity) hm1
  have hm2 : ⌊q * 2^400⌋ < 2^2200 := by
    have ha : q * 2^400 ≤ 2^300 * 2^400 :=
      mul_le_mul_of_nonneg_right h2 (by positivity)
    have hb : ((⌊q * 2^400⌋ : ℤ) : ℚ) ≤ 2^700 := by
      calc ((⌊q * 2^400⌋ : ℤ) : ℚ) ≤ q * 2^400 := hmq
      _ ≤ 2^300 * 2^400 := ha
      _ = 2^700 := by norm_num
    have hc : (⌊q * 2^400⌋ : ℤ) ≤ 2^700 := by exact_mod_cast hb
    have hd : (2:ℤ)^700 < 2^2200 := by norm_num
    omega
  have hmnm : ((⌊q * 2^400⌋.toNat : ℕ) : ℤ) = ⌊q * 2^400⌋ := Int.toNat_of_nonneg hm0.le
  have hmn0 : ⌊q * 2^400⌋.toNat ≠ 0 := by omega
  have hmnlt : ⌊q * 2^400⌋.toNat < 2 ^ 2200 := by
    have : ((⌊q * 2^400⌋.toNat : ℕ) : ℤ) < ((2^2200 : ℕ) : ℤ) := by
      rw [hmnm]
      push_cast
      exact hm2
    exact_mod_cast this
  obtain ⟨hb1, hb2⟩ := bl_spec 2200 ⌊q * 2^400⌋.toNat hmn0 hmnlt
  have hL : floorLog2 q = (bitLen ⌊q * 2^400⌋.toNat : ℤ) - 1 - 400 := rfl
  have hbge : 1 ≤ bitLen ⌊q * 2^400⌋.toNat := by
    by_contra hcon
    push_neg at hcon
    have hz : bitLen ⌊q * 2^400⌋.toNat = 0 := by omega
    rw [show bitLen = bl 2200 from rfl] at hz
    rw [hz] at hb2
    simp at hb2
    omega
  rw [hL]
  have hcast1 : ((2:ℚ)^(bitLen ⌊q * 2^400⌋.toNat - 1) : ℚ) ≤ (⌊q * 2^400⌋ : ℚ) := by
    have : ((2^(bitLen ⌊q * 2^400⌋.toNat - 1) : ℕ) : ℚ) ≤ ((⌊q * 2^400⌋.toNat : ℕ) : ℚ) := by
      exact_mod_cast hb1
    push_cast at this
    rw [show ((⌊q * 2^400⌋.toNat : ℕ) : ℚ) = ((⌊q * 2^400⌋ : ℤ) : ℚ) by exact_mod_cast congrArg Int.cast hmnm] at this
    exact this
  have hcast2 : (⌊q * 2^400⌋ : ℚ) + 1 ≤ (2:ℚ)^(bitLen ⌊q * 2^400⌋.toNat) := by
    have : ((⌊q * 2^400⌋.toNat : ℕ) : ℚ) + 1 ≤ ((2^(bitLen ⌊q * 2^400⌋.toNat) : ℕ) : ℚ) := by
      exact_mod_cast hb2
    push_cast at this
    rw [show ((⌊q * 2^400⌋.toNat : ℕ) : ℚ) = ((⌊q * 2^400⌋ : ℤ) : ℚ) by exact_mod_cast congrArg Int.cast hmnm] at this
    push_cast
    linarith
  constructor
  · have hexp : (bitLen ⌊q * 2^400⌋.toNat : ℤ) - 1 - 400 =
        ((bitLen ⌊q * 2^400⌋.toNat - 1 : ℕ) : ℤ) - ((400 : ℕ) : ℤ) := by
      push_cast [Nat.cast_sub hbge]
      ring
    rw [hexp, zpow_sub_natCast]
    rw [div_le_iff₀ (by positivity)]
    calc ((2:ℚ)^(bitLen ⌊q * 2^400⌋.toNat - 1) : ℚ) ≤ (⌊q * 2^400⌋ : ℚ) := hcast1
    _ ≤ q * 2^400 := hmq
  · have hexp : (bitLen ⌊q * 2^400⌋.toNat : ℤ) - 1 - 400 + 1 =
        ((bitLen ⌊q * 2^400⌋.toNat : ℕ) : ℤ) - ((400 : ℕ) : ℤ) := by
      push_cast
      ring
    rw [hexp, zpow_sub_natCast]
    rw [lt_div_iff₀ (by positivity)]
    calc q * 2^400 < (⌊q * 2^400⌋ : ℚ) + 1 := hqm
    _ ≤ (2:ℚ)^(bitLen ⌊q * 2^400⌋.toNat) := hcast2

theorem floorLog2_unique (q : ℚ) (L : ℤ) (h1 : 1/2^300 ≤ q) (h2 : q ≤ 2^300)
    (hl : (2:ℚ)^L ≤ q) (hu : q < (2:ℚ)^(L+1)) : floorLog2 q = L := by
  obtain ⟨hl', hu'⟩ := floorLog2_bounds q h1 h2
  have c1 : (2:ℚ)^L < (2:ℚ)^(floorLog2 q + 1) := lt_of_le_of_lt hl hu'
  have c2 : (2:ℚ)^(floorLog2 q) < (2:ℚ)^(L+1) := lt_of_le_of_lt hl' hu
  rw [zpow_lt_zpow_iff_right₀ (by norm_num : (1:ℚ) < 2)] at c1 c2
  omega

theorem fl_of_pos (q : ℚ) (h : 0 < q) : fl q = flPos q := by
  unfold fl
  rw [if_neg (by linarith), if_neg (ne_of_gt h)]

theorem flPos_eval_neg (q : ℚ) (L : ℤ) (k : ℕ) (h1 : 1/2^300 ≤ q) (h2 : q ≤ 2^300)
    (hl : (2:ℚ)^L ≤ q) (hu : q < (2:ℚ)^(L+1)) (hL : L < 52) (hk : (k : ℤ) = 52 - L) :
    flPos q = (rhe (q * 2^k) : ℚ) / 2^k := by
  have hfl : floorLog2 q = L := floorLog2_unique q L h1 h2 hl hu
  unfold flPos
  dsimp only
  rw [hfl, if_neg (by omega : ¬(0 ≤ L - 52)), show (-(L - 52)).toNat = k by omega]

theorem flPos_err (q : ℚ) (h1 : 1/2^300 ≤ q) (h2 : q ≤ 2^300) :
    q * (1 - 1/2^53) ≤ flPos q ∧ flPos q ≤ q * (1 + 1/2^53) := by
  have hq0 : (0:ℚ) < q := lt_of_lt_of_le (by norm_num) h1
  obtain ⟨hl, hu⟩ := floorLog2_bounds q h1 h2
  unfold flPos
  dsimp only
  split_ifs with he
  · obtain ⟨r1, r2⟩ := rhe_bounds (q / 2^(floorLog2 q - 52).toNat)
    have hpow : (0:ℚ) < 2^(floorLog2 q - 52).toNat := by positivity
    have key : (2:ℚ)^(floorLog2 q - 52).toNat * 2^52 ≤ q := by
      have hcomb : (2:ℚ)^(floorLog2 q - 52).toNat * 2^52 = 2^(floorLog2 q) := by
        rw [← zpow_natCast (2:ℚ) (floorLog2 q - 52).toNat,
          ← zpow_natCast (2:ℚ) 52, ← zpow_add₀ (by norm_num : (2:ℚ) ≠ 0)]
        congr 1
        omega
      rw [hcomb]
      exact hl
    constructor
    · have ha := mul_le_mul_of_nonneg_right r1 hpow.le
      rw [sub_mul, div_mul_cancel₀ _ (ne_of_gt hpow)] at ha
      nlinarith
    · have ha := mul_le_mul_of_nonneg_right r2 hpow.le
      rw [add_mul, div_mul_cancel₀ _ (ne_of_gt hpow)] at ha
      nlinarith
  · obtain ⟨r1, r2⟩ := rhe_bounds (q * 2^(-(floorLog2 q - 52)).toNat)
    have hpow : (0:ℚ) < 2^(-(floorLog2 q - 52)).toNat := by positivity
    have key : (2:ℚ)^52 ≤ q * 2^(-(floorLog2 q - 52)).toNat := by
      have hcomb : (2:ℚ)^(floorLog2 q) * 2^(-(floorLog2 q - 52)).toNat = 2^(52:ℕ) := by
        rw [← zpow_natCast (2:ℚ) (-(floorLog2 q - 52)).toNat,
          ← zpow_natCast (2:ℚ) 52, ← zpow_add₀ (by norm_num : (2:ℚ) ≠ 0)]
        congr 1
        omega
      calc (2:ℚ)^52 = (2:ℚ)^(floorLog2 q) * 2^(-(floorLog2 q - 52)).toNat := by
            rw [hcomb]
      _ ≤ q * 2^(-(floorLog2 q - 52)).toNat :=
            mul_le_mul_of_nonneg_right hl hpow.le
    constructor
    · rw [le_div_iff₀ hpow]
      nlinarith
    · rw [div_le_iff₀ hpow]
      nlinarith

theorem fl_err (q : ℚ) (h1 : 1/2^300 ≤ q) (h2 : q ≤ 2^300) :
    q * (1 - 1/2^53) ≤ fl q ∧ fl q ≤ q * (1 + 1/2^53) := by
  rw [fl_of_pos q (lt_of_lt_of_le (by norm_num) h1)]
  exact flPos_err q h1 h2

theorem fl_pos_of (q : ℚ) (h1 : 1/2^300 ≤ q) (h2 : q ≤ 2^300) : 0 < fl q := by
  have h := (fl_err q h1 h2).1
  have hq0 : (0:ℚ) < q := lt_of_lt_of_le (by norm_num) h1
  nlinarith

/-! ## Concrete binary64 evaluations -/

theorem TICKET_PRICE_SOL_eq :
    TICKET_PRICE_SOL = 5764607523034235 / 576460752303423488 := by
  unfold TICKET_PRICE_SOL
  rw [fl_of_pos _ (by norm_num),
    flPos_eval_neg (1/100) (-7) 59 (by norm_num) (by norm_num) (by norm_num) (by norm_num)
      (by norm_num) (by norm_num),
    rhe_eval_up _ 5764607523034234 (by norm_num) (by norm_num) (by norm_num)]
  norm_num

theorem ticketsToSol_29_eq :
    ticketsToSol 29 = 5224175567749775 / 18014398509481984 := by
  unfold ticketsToSol
  rw [TICKET_PRICE_SOL_eq]
  rw [fl_of_pos _ (by norm_num),
    flPos_eval_neg _ (-2) 54 (by norm_num) (by norm_num) (by norm_num) (by norm_num)
      (by norm_num) (by norm_num),
    rhe_eval_down _ 5224175567749775 (by norm_num) (by norm_num)]
  norm_num

theorem fl_five_hundredths_eq :
    fl (5/100) = 3602879701896397 / 72057594037927936 := by
  rw [fl_of_pos _ (by norm_num),
    flPos_eval_neg (5/100) (-5) 57 (by norm_num) (by norm_num) (by norm_num) (by norm_num)
      (by norm_num) (by norm_num),
    rhe_eval_up _ 7205759403792793 (by norm_num) (by norm_num) (by norm_num)]
  norm_num

theorem solToTickets_five_hundredths :
    solToTickets (fl (5/100)) = 5 := by
  unfold solToTickets
  rw [fl_five_hundredths_eq, TICKET_PRICE_SOL_eq]
  rw [fl_of_pos _ (by norm_num),
    flPos_eval_neg _ 2 50 (by norm_num) (by norm_num) (by norm_num) (by norm_num)
      (by norm_num) (by norm_num),
    rhe_eval_down _ 5629499534213120 (by norm_num) (by norm_num)]
  norm_num

/-! ## Pure arithmetic windows for the conversion analysis -/

theorem range_nc (n c : ℚ) (hn1 : 1 ≤ n) (hn2 : n ≤ 2^50)
    (hc1 : 1/100 * (1 - 1/2^53) ≤ c) (hc2 : c ≤ 1/100 * (1 + 1/2^53)) :
    1/2^300 ≤ n * c ∧ n * c ≤ 2^300 := by
  have hc0 : (0:ℚ) < c := by linarith
  have hp1 : c ≤ n * c := le_mul_of_one_le_left hc0.le hn1
  have hp2 : n * c ≤ 2^50 * (1/100 * (1 + 1/2^53)) :=
    mul_le_mul hn2 hc2 hc0.le (by positivity)
  constructor
  · have : (1/2^300 : ℚ) ≤ 1/100 * (1 - 1/2^53) := by norm_num
    linarith
  · have : (2:ℚ)^50 * (1/100 * (1 + 1/2^53)) ≤ 2^300 := by norm_num
    linarith

theorem range_x (n c t : ℚ) (hn1 : 1 ≤ n) (hn2 : n ≤ 2^50)
    (hc1 : 1/100 * (1 - 1/2^53) ≤ c) (hc2 : c ≤ 1/100 * (1 + 1/2^53))
    (ht1 : n * c * (1 - 1/2^53) ≤ t) (ht2 : t ≤ n * c * (1 + 1/2^53)) :
    1/2^300 ≤ t / c ∧ t / c ≤ 2^300 ∧
    n * (1 - 1/2^53) ≤ t / c ∧ t / c ≤ n * (1 + 1/2^53) := by
  have hc0 : (0:ℚ) < c := by linarith
  have hx1 : n * (1 - 1/2^53) ≤ t / c := by
    rw [le_div_iff₀ hc0]
    linarith [ht1]
  have hx2 : t / c ≤ n * (1 + 1/2^53) := by
    rw [div_le_iff₀ hc0]
    linarith [ht2]
  have hlo : (1:ℚ) * (1 - 1/2^53) ≤ n * (1 - 1/2^53) :=
    mul_le_mul_of_nonneg_right hn1 (by norm_num)
  have hhi : n * (1 + 1/2^53) ≤ 2^50 * (1 + 1/2^53) :=
    mul_le_mul_of_nonneg_right hn2 (by norm_num)
  refine ⟨?_, ?_, hx1, hx2⟩
  · have : (1/2^300 : ℚ) ≤ 1 * (1 - 1/2^53) := by norm_num
    linarith
  · have : (2:ℚ)^50 * (1 + 1/2^53) ≤ 2^300 := by norm_num
    linarith

theorem window_F (n x F : ℚ) (hn2 : n ≤ 2^50)
    (hx1 : n * (1 - 1/2^53) ≤ x) (hx2 : x ≤ n * (1 + 1/2^53))
    (hF1 : x * (1 - 1/2^53) ≤ F) (hF2 : F ≤ x * (1 + 1/2^53)) :
    n - 1/2 < F ∧ F < n + 1/2 := by
  have hr1 : n * (1 - 1/2^53) * (1 - 1/2^53) ≤ F := by
    have h := mul_le_mul_of_nonneg_right hx1 (show (0:ℚ) ≤ 1 - 1/2^53 by norm_num)
    linarith
  have hr2 : F ≤ n * (1 + 1/2^53) * (1 + 1/2^53) := by
    have h := mul_le_mul_of_nonneg_right hx2 (show (0:ℚ) ≤ 1 + 1/2^53 by norm_num)
    linarith
  constructor <;> nlinarith [hr1, hr2, hn2]

/-! ## C3: ticket conversion round trip -/

/-- C3 counterexample: converting 29 tickets to SOL and back yields 28, not
29 — `29 * 0.01` rounds to the double nearest `0.29`, and dividing that by
`0.01` lands just below 29, so the floor drops to 28. -/
theorem ticket_roundtrip_cex : solToTickets (ticketsToSol 29) = 28 := by
  unfold solToTickets
  rw [ticketsToSol_29_eq, TICKET_PRICE_SOL_eq]
  rw [fl_of_pos _ (by norm_num),
    flPos_eval_neg _ 4 48 (by norm_num) (by norm_num) (by norm_num) (by norm_num)
      (by norm_num) (by norm_num),
    rhe_eval_down _ 8162774324609023 (by norm_num) (by norm_num)]
  norm_num

/-- C3 (amended): because the conversions are binary64 floating point, the
round trip can undershoot by one: for every ticket count `n` with
`1 ≤ n ≤ 2 ^ 50`, `solToTickets (ticketsToSol n)` is `n` or `n - 1` (and it
is `n - 1` for some `n`, e.g. 29).  A deposit of 0.05 units buys exactly 5
tickets (ledger range `[0, 4]`, `totalTicketsSold = 5`), and every
successful ledger deposit's range satisfies
`end - start + 1 = amount / ticketPrice`. -/
theorem ticket_roundtrip_amended :
    (∀ n : ℕ, 1 ≤ n → n ≤ 2 ^ 50 →
      solToTickets (ticketsToSol (n : ℚ)) = (n : ℤ) ∨
      solToTickets (ticketsToSol (n : ℚ)) = (n : ℤ) - 1) ∧
    (solToTickets (fl (5/100)) = 5 ∧
      ledgerDeposit ⟨0⟩ 50000000 = some (⟨5⟩, 0, 4)) ∧
    (∀ (r : LedgerRound) (amountLamports : ℕ) (r' : LedgerRound) (s e : ℕ),
      ledgerDeposit r amountLamports = some (r', s, e) →
      getTicketCount (s : ℤ) (e : ℤ) = ((amountLamports / TICKET_PRICE_LAMPORTS : ℕ) : ℤ)) := by
  refine ⟨?_, ⟨solToTickets_five_hundredths, by decide⟩, ?_⟩
  · intro n h1n h2n
    have hcb := fl_err (1/100) (by norm_num) (by norm_num)
    rw [show fl (1/100) = TICKET_PRICE_SOL from rfl] at hcb
    have hn1 : (1:ℚ) ≤ (n:ℚ) := by exact_mod_cast h1n
    have hn2 : (n:ℚ) ≤ 2^50 := by exact_mod_cast h2n
    have hrnc := range_nc (n:ℚ) TICKET_PRICE_SOL hn1 hn2 hcb.1 hcb.2
    have ht := fl_err ((n:ℚ) * TICKET_PRICE_SOL) hrnc.1 hrnc.2
    rw [show fl ((n:ℚ) * TICKET_PRICE_SOL) = ticketsToSol (n:ℚ) from rfl] at ht
    have hrx := range_x (n:ℚ) TICKET_PRICE_SOL (ticketsToSol (n:ℚ)) hn1 hn2 hcb.1 hcb.2
      ht.1 ht.2
    have hF := fl_err (ticketsToSol (n:ℚ) / TICKET_PRICE_SOL) hrx.1 hrx.2.1
    have hw := window_F (n:ℚ) (ticketsToSol (n:ℚ) / TICKET_PRICE_SOL)
      (fl (ticketsToSol (n:ℚ) / TICKET_PRICE_SOL)) hn2 hrx.2.2.1 hrx.2.2.2 hF.1 hF.2
    have hfl1 : (n:ℤ) - 1 ≤ ⌊fl (ticketsToSol (n:ℚ) / TICKET_PRICE_SOL)⌋ := by
      rw [Int.le_floor]
      push_cast
      linarith [hw.1]
    have hfl2 : ⌊fl (ticketsToSol (n:ℚ) / TICKET_PRICE_SOL)⌋ < (n:ℤ) + 1 := by
      rw [Int.floor_lt]
      push_cast
      linarith [hw.2]
    have hred : solToTickets (ticketsToSol (n:ℚ)) =
        ⌊fl (ticketsToSol (n:ℚ) / TICKET_PRICE_SOL)⌋ := rfl
    rw [hred]
    omega
  · intro r amountLamports r' s e h
    unfold ledgerDeposit at h
    split_ifs at h with hrej
    push_neg at hrej
    simp only [Option.some.injEq, Prod.mk.injEq] at h
    obtain ⟨-, hs, he⟩ := h
    subst hs
    subst he
    unfold getTicketCount
    simp only [show TICKET_PRICE_LAMPORTS = 10000000 from rfl] at hrej ⊢
    have hd : 1 ≤ amountLamports / 10000000 := by omega
    push_cast [Nat.cast_sub (by omega : 1 ≤ r.totalTicketsSold + amountLamports / 10000000)]
    omega

/-- Witness for C3 (amended) at 5 tickets and the 0.05-unit deposit. -/
theorem ticket_roundtrip_amended_witness :
    (solToTickets (ticketsToSol ((5:ℕ) : ℚ)) = ((5:ℕ) : ℤ) ∨
      solToTickets (ticketsToSol ((5:ℕ) : ℚ)) = ((5:ℕ) : ℤ) - 1) ∧
    getTicketCount ((0:ℕ) : ℤ) ((4:ℕ) : ℤ) = ((50000000 / TICKET_PRICE_LAMPORTS : ℕ) : ℤ) :=
  ⟨ticket_roundtrip_amended.1 5 (by norm_num) (by norm_num),
    ticket_roundtrip_amended.2.2 ⟨0⟩ 50000000 ⟨5⟩ 0 4 (by decide)⟩

/-! ## C5: deposit amount validation -/

theorem window_lamports (k c t v : ℚ) (hk1 : 1 ≤ k) (hk2 : k ≤ 10^8)
    (hc1 : 1/100 * (1 - 1/2^53) ≤ c) (hc2 : c ≤ 1/100 * (1 + 1/2^53))
    (ht1 : k * c * (1 - 1/2^53) ≤ t) (ht2 : t ≤ k * c * (1 + 1/2^53))
    (hv1 : t * 10^9 * (1 - 1/2^53) ≤ v) (hv2 : v ≤ t * 10^9 * (1 + 1/2^53)) :
    k * 10^7 ≤ v + 1/2 ∧ v + 1/2 < k * 10^7 + 1 := by
  have hk0 : (0:ℚ) ≤ k := by linarith
  have hkc1 : k * (1/100 * (1 - 1/2^53)) ≤ k * c := mul_le_mul_of_nonneg_left hc1 hk0
  have hkc2 : k * c ≤ k * (1/100 * (1 + 1/2^53)) := mul_le_mul_of_nonneg_left hc2 hk0
  constructor <;> linarith [hkc1, hkc2, ht1, ht2, hv1, hv2, hk1, hk2]

theorem fl_a2_eval :
    fl ((5764607523558523 / 576460752303423488 : ℚ) * 10^9) =
      5368709120488281 / 536870912 := by
  rw [fl_of_pos _ (by norm_num),
    flPos_eval_neg _ 23 29 (by norm_num) (by norm_num) (by norm_num) (by norm_num)
      (by norm_num) (by norm_num),
    rhe_eval_down _ 5368709120488281 (by norm_num) (by norm_num)]
  norm_num

/-- C5 counterexample: the double `0.01 + 2 ^ (-40)` is positive and is not
an exact multiple of the ticket price `0.01`, yet `isValidTicketAmount`
accepts it (its value rounds to exactly `10 ^ 7` lamports) and `deposit`
submits a transaction instead of failing, contradicting the claim that
every amount that is not an exact multiple of the ticket price is
rejected. -/
theorem deposit_validation_cex :
    (0 < (5764607523558523 / 576460752303423488 : ℚ)) ∧
    (¬ ∃ z : ℤ, (5764607523558523 / 576460752303423488 : ℚ) = (z : ℚ) / 100) ∧
    isValidTicketAmount (5764607523558523 / 576460752303423488) = true ∧
    deposit (5764607523558523 / 576460752303423488) =
      DepositOutcome.submitted (5368709120488281 / 536870912) := by
  have hv : isValidTicketAmount (5764607523558523 / 576460752303423488) = true := by
    unfold isValidTicketAmount
    rw [show ((LAMPORTS_PER_SOL : ℕ) : ℚ) = 10^9 by norm_num [LAMPORTS_PER_SOL],
      fl_a2_eval]
    unfold jround
    rw [show ⌊(5368709120488281 / 536870912 : ℚ) + 1/2⌋ = 10000000 by norm_num,
      show ((TICKET_PRICE_LAMPORTS : ℕ) : ℤ) = 10000000 by norm_num [TICKET_PRICE_LAMPORTS]]
    decide
  refine ⟨by norm_num, ?_, hv, ?_⟩
  · rintro ⟨z, hz⟩
    have hz2 : (z : ℚ) * 576460752303423488 = 576460752355852300 := by
      field_simp at hz
      linarith
    have hz3 : z * 576460752303423488 = 576460752355852300 := by exact_mod_cast hz2
    omega
  · unfold deposit
    rw [if_neg (by norm_num), if_neg (by simp [hv]),
      show ((LAMPORTS_PER_SOL : ℕ) : ℚ) = 10^9 by norm_num [LAMPORTS_PER_SOL],
      fl_a2_eval]

/-- C5 (amended): `deposit` rejects every non-positive amount with the
non-positive error, rejects every amount whose value rounded to the nearest
lamport is not a multiple of the `10 ^ 7`-lamport ticket price, and
otherwise submits the transaction — so validation decides membership in the
lamport-rounded multiples of the ticket price, not exact multiples of 0.01:
every whole-ticket amount `k * 0.01` (computed in binary64) with
`1 ≤ k ≤ 10 ^ 8` passes, but so can a non-multiple within rounding
distance of one (e.g. `0.01 + 2 ^ (-40)`). -/
theorem deposit_validation_amended :
    (∀ a : ℚ, a ≤ 0 → deposit a = DepositOutcome.rejectedNonPositive) ∧
    (∀ a : ℚ, 0 < a → isValidTicketAmount a = false →
      deposit a = DepositOutcome.rejectedNotWholeTickets) ∧
    (∀ a : ℚ, 0 < a → isValidTicketAmount a = true →
      deposit a = DepositOutcome.submitted (fl (a * (LAMPORTS_PER_SOL : ℚ)))) ∧
    (∀ k : ℕ, 1 ≤ k → k ≤ 10 ^ 8 →
      isValidTicketAmount (ticketsToSol (k : ℚ)) = true ∧ 0 < ticketsToSol (k : ℚ)) := by
  refine ⟨?_, ?_, ?_, ?_⟩
  · intro a ha
    unfold deposit
    rw [if_pos ha]
  · intro a ha hval
    unfold deposit
    rw [if_neg (not_le.mpr ha), if_pos (by simp [hval])]
  · intro a ha hval
    unfold deposit
    rw [if_neg (not_le.mpr ha), if_neg (by simp [hval])]
  · intro k h1k h2k
    have hcb := fl_err (1/100) (by norm_num) (by norm_num)
    rw [show fl (1/100) = TICKET_PRICE_SOL from rfl] at hcb
    have hk1 : (1:ℚ) ≤ (k:ℚ) := by exact_mod_cast h1k
    have hk2q : (k:ℚ) ≤ 10^8 := by exact_mod_cast h2k
    have hk2' : (k:ℚ) ≤ 2^50 := by
      have : (10^8 : ℚ) ≤ 2^50 := by norm_num
      linarith
    have hrnc := range_nc (k:ℚ) TICKET_PRICE_SOL hk1 hk2' hcb.1 hcb.2
    have ht := fl_err ((k:ℚ) * TICKET_PRICE_SOL) hrnc.1 hrnc.2
    rw [show fl ((k:ℚ) * TICKET_PRICE_SOL) = ticketsToSol (k:ℚ) from rfl] at ht
    have htpos : 0 < ticketsToSol (k:ℚ) := by linarith [ht.1, hrnc.1]
    have hc0 : (0:ℚ) < TICKET_PRICE_SOL := by linarith [hcb.1]
    have hkc : (k:ℚ) * TICKET_PRICE_SOL ≤ 10^8 * (1/100 * (1 + 1/2^53)) :=
      mul_le_mul hk2q hcb.2 hc0.le (by positivity)
    have hrange1 : 1/2^300 ≤ ticketsToSol (k:ℚ) * 10^9 := by linarith [ht.1, hrnc.1]
    have hrange2 : ticketsToSol (k:ℚ) * 10^9 ≤ 2^300 := by
      have hlit : (10^8 * (1/100 * (1 + 1/2^53)) * (1 + 1/2^53)) * 10^9 ≤ (2:ℚ)^300 := by
        norm_num
      linarith [ht.2, hkc]
    have hv := fl_err (ticketsToSol (k:ℚ) * 10^9) hrange1 hrange2
    have hwin := window_lamports (k:ℚ) TICKET_PRICE_SOL (ticketsToSol (k:ℚ))
      (fl (ticketsToSol (k:ℚ) * 10^9)) hk1 hk2q hcb.1 hcb.2 ht.1 ht.2 hv.1 hv.2
    have hjr : jround (fl (ticketsToSol (k:ℚ) * 10^9)) = (k:ℤ) * 10000000 := by
      unfold jround
      rw [Int.floor_eq_iff]
      constructor
      · push_cast
        linarith [hwin.1]
      · push_cast
        linarith [hwin.2]
    refine ⟨?_, htpos⟩
    unfold isValidTicketAmount
    rw [show ((LAMPORTS_PER_SOL : ℕ) : ℚ) = 10^9 by norm_num [LAMPORTS_PER_SOL], hjr,
      show ((TICKET_PRICE_LAMPORTS : ℕ) : ℤ) = 10000000 by norm_num [TICKET_PRICE_LAMPORTS],
      Int.mul_tmod_left]
    rfl

/-- Witness for C5 (amended) at 5 tickets. -/
theorem deposit_validation_amended_witness :
    isValidTicketAmount (ticketsToSol ((5:ℕ) : ℚ)) = true ∧
    0 < ticketsToSol ((5:ℕ) : ℚ) :=
  deposit_validation_amended.2.2.2 5 (by norm_num) (by norm_num)

end Circus
